import Mathlib

/-!
Shallow embedding of `neo/io/axonaio.py` (Axona dataset reader) and proofs
about it.  Files are modelled as byte lists (`List ℕ`, every byte `< 256`);
the Python `str(bytes, 'latin-1')` decoding becomes `Char.ofNat` on each
byte.  Python's loosely typed parameter dictionaries become association
lists of `PyValue`.  Rational numbers stand in for Python floats: every
arithmetic identity proved here is exact.
-/

namespace Axona

instance {ε α : Type} [DecidableEq ε] [DecidableEq α] :
    DecidableEq (Except ε α) := fun x y =>
  match x, y with
  | .ok a, .ok b =>
    match decEq a b with
    | isTrue h => isTrue (by rw [h])
    | isFalse h => isFalse (fun hc => h (by injection hc))
  | .error a, .error b =>
    match decEq a b with
    | isTrue h => isTrue (by rw [h])
    | isFalse h => isFalse (fun hc => h (by injection hc))
  | .ok _, .error _ => isFalse (fun hc => Except.noConfusion hc)
  | .error _, .ok _ => isFalse (fun hc => Except.noConfusion hc)

/-- Tagged variant for values stored in a parsed parameter dictionary:
Python `None`, `int`, `float` (modelled exactly as `ℚ`) or `str`. -/
inductive PyValue where
  | none
  | int (i : ℤ)
  | float (q : ℚ)
  | str (s : String)
deriving DecidableEq, Repr

/-- Parameter dictionary: insertion-ordered association list, keys unique. -/
abbrev Params := List (String × PyValue)

/-- Dictionary assignment `d[k] = v`: overwrite in place if the key exists
(Python dicts keep the original position), otherwise append. -/
def dictInsert (ps : Params) (k : String) (v : PyValue) : Params :=
  if ps.any (fun p => p.1 = k) then
    ps.map (fun p => if p.1 = k then (k, v) else p)
  else
    ps ++ [(k, v)]

/-- Dictionary lookup `d.get(k)`: `Option.none` when the key is absent. -/
def lookupParam (ps : Params) (k : String) : Option PyValue :=
  (ps.find? (fun p => p.1 = k)).map Prod.snd

/-- Characters c with c.isspace() true in Python, restricted to the
latin-1 range (the only characters a byte can decode to). -/
def pyIsSpace (c : Char) : Bool :=
  c = ' ' ∨ c = '\t' ∨ c = '\n' ∨ c = '\r' ∨ c = '\x0b' ∨ c = '\x0c' ∨
  c = '\x1c' ∨ c = '\x1d' ∨ c = '\x1e' ∨ c = '\x1f' ∨ c = '\x85' ∨ c = '\xa0'

/-- Python `str.strip()` on a character list: drop leading and trailing
whitespace. -/
def pyStripL (l : List Char) : List Char :=
  ((l.dropWhile pyIsSpace).reverse.dropWhile pyIsSpace).reverse

/-- Python `str.strip()` on a `String`. -/
def pyStrip (s : String) : String :=
  String.mk (pyStripL s.data)

/-- Split a character list at every occurrence of `sep`
(Python `s.split(sep)` with a one-character separator: runs of the
separator produce empty fields, and the empty string splits to `[""]`). -/
def splitOnChar (sep : Char) : List Char → List (List Char)
  | [] => [[]]
  | c :: r =>
    match splitOnChar sep r with
    | [] => [[c]]
    | h :: t => if c = sep then [] :: h :: t else (c :: h) :: t

/-- Split at the first space only (Python `s.split(" ", 1)`): returns the
part before the first space and, when a space exists, the raw remainder. -/
def splitOnce : List Char → List Char × Option (List Char)
  | [] => ([], Option.none)
  | c :: r =>
    if c = ' ' then ([], some r)
    else
      let p := splitOnce r
      (c :: p.1, p.2)

/-- Value of a non-empty digit string. -/
def digitsToNat (l : List Char) : ℕ :=
  l.foldl (fun a c => 10 * a + (c.toNat - '0'.toNat)) 0

/-- Python `int(s)` on a decimal string: optional surrounding whitespace,
optional sign, then at least one digit.  `Option.none` models `ValueError`. -/
def pyInt? (s : List Char) : Option ℤ :=
  let t := pyStripL s
  let core : List Char → Option ℤ := fun d =>
    if d ≠ [] ∧ d.all Char.isDigit then some (digitsToNat d : ℤ) else Option.none
  match t with
  | '+' :: r => core r
  | '-' :: r => (core r).map Int.neg
  | r => core r

/-- Python `float(s)` on a plain decimal string (optional sign, digits with
at most one dot; exponent and inf/nan forms are not modelled — no header
value in this development uses them).  `Option.none` models `ValueError`. -/
def pyFloat? (s : List Char) : Option ℚ :=
  let t := pyStripL s
  let core : List Char → Option ℚ := fun d =>
    let ip := d.takeWhile Char.isDigit
    let rest := d.drop ip.length
    match rest with
    | [] => if ip ≠ [] then some (digitsToNat ip : ℚ) else Option.none
    | '.' :: fp =>
      if fp.all Char.isDigit ∧ (ip ≠ [] ∨ fp ≠ []) then
        some ((digitsToNat ip : ℚ) + (digitsToNat fp : ℚ) / 10 ^ fp.length)
      else Option.none
    | _ => Option.none
  match t with
  | '+' :: r => core r
  | '-' :: r => (core r).map Neg.neg
  | r => core r

/-- Value stored for one header line: try `int(...)`, then `float(...)`,
else keep the raw remainder string (axonaio.py lines 49-56). -/
def parseLineValue (rest : List Char) : PyValue :=
  match pyInt? rest with
  | some i => .int i
  | Option.none =>
    match pyFloat? rest with
    | some q => .float q
    | Option.none => .str (String.mk rest)

/-- Process one line of a parameter block: strip, skip if empty, split at
the first space into key and remainder, store the parsed value (or `None`
when there is no remainder). -/
def parsePyLine (ps : Params) (line : List Char) : Params :=
  let l := pyStripL line
  if l = [] then ps
  else
    match splitOnce l with
    | (name, Option.none) => dictInsert ps (String.mk name) .none
    | (name, some rest) => dictInsert ps (String.mk name) (parseLineValue rest)

/-- Embedding of `parse_params` (axonaio.py lines 35-57): split the text on
newlines and accumulate a parameter dictionary. -/
def parse_params (text : List Char) : Params :=
  (splitOnChar '\n' text).foldl parsePyLine []

/-- Latin-1 decoding of a byte list, one character per byte
(Python `str(b, 'latin-1')`). -/
def latin1Decode (bs : List ℕ) : List Char :=
  bs.map Char.ofNat

/-- ASCII encoding helper used to build concrete test inputs. -/
def strBytes (s : String) : List ℕ :=
  s.data.map Char.toNat

/-- Python file objects and strings, as far as the error-message
construction in `parse_header_and_leave_cursor` can see them. -/
inductive PyObj where
  | str (s : String)
  | fileHandle (name : String)
deriving DecidableEq, Repr

/-- Python `+` restricted to the operands that occur in the source:
string concatenation succeeds, `str + file-object` is a `TypeError`
(modelled as `Option.none`). -/
def pyAdd : PyObj → PyObj → Option PyObj
  | .str a, .str b => some (.str (a ++ b))
  | _, _ => Option.none

/-- Errors the header scanner can raise. -/
inductive ScanError where
  | ioError (msg : String)
  | typeError
deriving DecidableEq, Repr

/-- Error raised on end of file (axonaio.py lines 68-69): the source builds
the message as `"Hit end of file '" + file_handle + "'' before '" +
search_string + "' found."`, concatenating the file OBJECT into a string;
evaluating that expression left to right in Python raises a `TypeError`
before any `IOError` is constructed. -/
def eofError (fh : PyObj) : ScanError :=
  match pyAdd (.str "Hit end of file '") fh with
  | Option.none => .typeError
  | some a =>
    match pyAdd a (.str "'' before '") with
    | Option.none => .typeError
    | some b =>
      match pyAdd b (.str "data_start") with
      | Option.none => .typeError
      | some c =>
        match pyAdd c (.str "' found.") with
        | Option.none => .typeError
        | some (.str m) => .ioError m
        | some _ => .typeError

/-- Loop body of `parse_header_and_leave_cursor` (axonaio.py lines 62-72):
read one byte, append its latin-1 decoding to the accumulator, fail on end
of file, stop when the accumulator ends with `data_start`. -/
def scanHeader (fh : PyObj) (acc : List Char) :
    List ℕ → Except ScanError (List Char × List ℕ)
  | [] => .error (eofError fh)
  | b :: rest =>
    let acc' := acc ++ [Char.ofNat b]
    if ("data_start".data).isSuffixOf acc' then .ok (acc', rest)
    else scanHeader fh acc' rest

/-- Embedding of `parse_header_and_leave_cursor` (axonaio.py lines 60-76):
scan for the sentinel, parse the accumulated header text (sentinel
included) with `parse_params`, and return the unread tail of the file —
the position of the read cursor after the call. -/
def parse_header_and_leave_cursor (fh : PyObj) (content : List ℕ) :
    Except ScanError (Params × List ℕ) :=
  (scanHeader fh [] content).map (fun p => (parse_params p.1, p.2))

/-- Failure of the trailer check. -/
inductive FormatError where
  | assertionFailed
deriving DecidableEq, Repr

/-- Embedding of `assert_end_of_data` (axonaio.py lines 79-81): read all
remaining bytes, decode as latin-1, strip, and require exact equality with
`"data_end"`; the failing `assert` is the error case. -/
def assert_end_of_data (remaining : List ℕ) : Except FormatError Unit :=
  if pyStripL (latin1Decode remaining) = "data_end".data then .ok ()
  else .error .assertionFailed

/-- Embedding of `scale_analog_signal` (axonaio.py lines 84-101) on one
sample: `(value / max_value) * (adc_fullscale_mv / gain)` with
`max_value = 2 ^ (8 * bytes_per_sample - 1)`. -/
def scale_analog_signal (value gain adc_fullscale_mv : ℚ)
    (bytes_per_sample : ℕ) : ℚ :=
  let max_value : ℚ := 2 ^ (8 * bytes_per_sample - 1)
  (value / max_value) * (adc_fullscale_mv / gain)

/-- Element-wise broadcast of `scale_analog_signal` over an array argument
with a scalar gain: numpy evaluates the same expression in every slot. -/
def scale_analog_signal_array (values : List ℚ) (gain adc_fullscale_mv : ℚ)
    (bytes_per_sample : ℕ) : List ℚ :=
  values.map (fun v => scale_analog_signal v gain adc_fullscale_mv bytes_per_sample)

/-- Embedding of the sample_rate unit assertion in `read_tracking`
(axonaio.py lines 324-325): split the raw `sample_rate` string on spaces
and require the token at index 1 to be exactly `"hz"`.  An out-of-range
index (fewer than two tokens) aborts the decode just as the failing
`assert` does, so both are folded into the `false` outcome. -/
def tracking_sample_rate_unit_ok (v : List Char) : Bool :=
  (splitOnChar ' ' v).get? 1 == some ("hz".data)

lemma splitOnChar_cons (sep c : Char) (r : List Char) :
    splitOnChar sep (c :: r) =
      match splitOnChar sep r with
      | [] => [[c]]
      | h :: t => if c = sep then [] :: h :: t else (c :: h) :: t := rfl

lemma splitOnChar_ne_nil (sep : Char) (l : List Char) :
    splitOnChar sep l ≠ [] := by
  cases l with
  | nil => simp [splitOnChar]
  | cons c r =>
    simp only [splitOnChar]
    match splitOnChar sep r with
    | [] => simp
    | h :: t =>
      by_cases hc : c = sep <;> simp [hc]

lemma splitOnChar_no_sep (sep : Char) (l : List Char) (h : sep ∉ l) :
    splitOnChar sep l = [l] := by
  induction l with
  | nil => rfl
  | cons c r ih =>
    have hc : ¬(c = sep) := fun hx => h (hx ▸ List.mem_cons_self c r)
    have hr : sep ∉ r := fun hx => h (List.mem_cons_of_mem c hx)
    simp only [splitOnChar, ih hr]
    simp [fun hx : c = sep => hc hx, hc]

lemma splitOnChar_append_sep (sep : Char) (num rest : List Char)
    (h : sep ∉ num) :
    splitOnChar sep (num ++ sep :: rest) = num :: splitOnChar sep rest := by
  induction num with
  | nil =>
    simp only [List.nil_append, splitOnChar]
    match hx : splitOnChar sep rest with
    | [] => exact absurd hx (splitOnChar_ne_nil sep rest)
    | hh :: t => simp
  | cons c r ih =>
    have hc : ¬(c = sep) := fun hx => h (hx ▸ List.mem_cons_self c _)
    have hr : sep ∉ r := fun hx => h (List.mem_cons_of_mem c hx)
    rw [List.cons_append, splitOnChar_cons, ih hr]
    simp [hc]

/-- Python `str(...)` of a parameter value, as used to build parameter
names like `"mode_ch_" + str(id)`.  Only integer and string values are
exercised in this development; the float rendering is a best effort. -/
def pyStr : PyValue → String
  | .none => "None"
  | .int i => toString i
  | .float q => toString q
  | .str s => s

/-- File-kind and numeric suffix of an analog file extension (the
extension without its dot, e.g. `"eeg"` or `"egf2"`): the kind is the
first three characters and the suffix is the remainder, defaulting to
`"1"` when empty, converted with `int(...)`
(axonaio.py lines 394-399). -/
def fileTypeAndSuffix (extension : List Char) : List Char × Option ℤ :=
  (extension.take 3,
   pyInt? (if extension.drop 3 = [] then "1".data else extension.drop 3))

/-- Channel-resolution chain of `read_analogsignal` (axonaio.py lines
428-435): suffix → logical EEG channel id (`EEG_ch_<suffix>`), whose
recording mode (`mode_ch_<id>`) is read but unused, reference-bank id
(`b_in_ch_<id>`) → original physical channel id (`ref_<bank>`); the gain
is looked up by the LOGICAL id (`gain_ch_<id>`).  Returns the pair that
the source stores as `params["channel_id"]` and passes as `gain` to
`scale_analog_signal`. -/
def resolveAnalogChannel (rootParams : Params) (suffix : ℤ) :
    Option (PyValue × PyValue) := do
  let eegCh ← lookupParam rootParams ("EEG_ch_" ++ toString suffix)
  let _mode ← lookupParam rootParams ("mode_ch_" ++ pyStr eegCh)
  let refId ← lookupParam rootParams ("b_in_ch_" ++ pyStr eegCh)
  let chanId ← lookupParam rootParams ("ref_" ++ pyStr refId)
  let gain ← lookupParam rootParams ("gain_ch_" ++ pyStr eegCh)
  return (chanId, gain)

/-- Resolution for a whole extension: derive the suffix, then resolve. -/
def analog_channel_and_gain (rootParams : Params) (extension : List Char) :
    Option (PyValue × PyValue) := do
  let suffix ← (fileTypeAndSuffix extension).2
  resolveAnalogChannel rootParams suffix

/-- Scaled coordinate matrix of `read_tracking` before sentinel masking
(axonaio.py line 354): every raw coordinate divided by pixels_per_metre,
wrapped in `some` (`Option.none` will model numpy's NaN). -/
def scaledCoords (ppm : ℚ) (raw : List (List ℤ)) : List (List (Option ℚ)) :=
  raw.map (fun row => row.map (fun v => some ((v : ℚ) / ppm)))

/-- Sentinel masking loop of `read_tracking` (axonaio.py lines 356-357):
for each column `i`, the source executes
`coords[np.where(data["coords"][:, i] == 1023)] = np.nan`.
`np.where` on a one-dimensional condition returns ROW indices, and
indexing `coords` with row indices selects whole rows, so the assignment
overwrites every column of each matching row with NaN, not just column
`i`. -/
def maskMissing (ncols : ℕ) (raw : List (List ℤ))
    (scaled : List (List (Option ℚ))) : List (List (Option ℚ)) :=
  (List.range ncols).foldl
    (fun acc i =>
      (raw.zip acc).map
        (fun p => if p.1.get? i = some 1023 then p.2.map (fun _ => Option.none)
                  else p.2))
    scaled

/-- Record-level core of `read_tracking` (axonaio.py lines 350-357): given
the decoded position records `(timestamp, coordinates)`, divide timestamps
by the timebase, divide coordinates by pixels_per_metre, then run the
sentinel-masking loop over all `2 × tracked_spots` columns. -/
def read_tracking_records (timebase ppm : ℚ) (tracked_spots : ℕ)
    (recs : List (ℤ × List ℤ)) : List ℚ × List (List (Option ℚ)) :=
  (recs.map (fun r => (r.1 : ℚ) / timebase),
   maskMissing (2 * tracked_spots) (recs.map Prod.snd)
     (scaledCoords ppm (recs.map Prod.snd)))

/-- Catalog group: 1-based group id, owning file, global channel ids. -/
structure CatalogGroup where
  group_id : ℕ
  filename : String
  channel_ids : List ℕ
deriving DecidableEq, Repr

/-- Channel count declared by a group file header
(`channel_group_params["num_chans"]`, axonaio.py line 165): absent keys
are a KeyError and non-integer or negative values break the `range` and
channel-count arithmetic, all modelled as `Option.none`. -/
def getNumChans (ps : Params) : Option ℕ :=
  match lookupParam ps "num_chans" with
  | some (.int i) => if 0 ≤ i then some i.toNat else Option.none
  | _ => Option.none

/-- Loop body of catalog construction (axonaio.py lines 159-187): for each
discovered file, in the order the glob returned them, increment the group
counter (groups are 1-based), scan the embedded header for `num_chans`,
and hand the group the next `num_chans` global channel ids
(`channel_id = channel_count + i`, channels are 0-based); accumulated
state is `(group_count, channel_count)`. -/
def buildCatalogGo : List (String × List ℕ) → ℕ → ℕ →
    Option (List CatalogGroup × ℕ)
  | [], _gcount, ccount => some ([], ccount)
  | (name, content) :: rest, gcount, ccount => do
    let pr ← (parse_header_and_leave_cursor (.fileHandle name) content).toOption
    let n ← getNumChans pr.1
    let p ← buildCatalogGo rest (gcount + 1) (ccount + n)
    return (⟨gcount + 1, name, (List.range n).map (ccount + ·)⟩ :: p.1, p.2)

/-- Embedding of the catalog construction in `AxonaIO.__init__`
(axonaio.py lines 151-190) over the discovered channel-group files, given
as `(filename, raw bytes)` in discovery order; returns the groups and the
total channel count (`_channel_count`, also the length of
`_channel_ids = arange(channel_count)`). -/
def buildCatalog (files : List (String × List ℕ)) :
    Option (List CatalogGroup × ℕ) :=
  buildCatalogGo files 0 0

/-- Big-endian unsigned integer value of a byte list (numpy dtype
`">u<w>"`). -/
def beBytesToNat (bs : List ℕ) : ℕ :=
  bs.foldl (fun a b => 256 * a + b) 0

/-- Big-endian byte encoding of `n` on `w` bytes (synthetic construction
used to build test files; inverse of `beBytesToNat` for `n < 256 ^ w`). -/
def natToBeBytes : ℕ → ℕ → List ℕ
  | 0, _ => []
  | w + 1, n => natToBeBytes w (n / 256) ++ [n % 256]

/-- Little-endian unsigned integer value of a byte list. -/
def leBytesToNat (bs : List ℕ) : ℕ :=
  bs.foldr (fun b a => 256 * a + b) 0

/-- Little-endian SIGNED integer value of a byte list (numpy dtype
`"<i<w>"`): two's complement over `8 * w` bits. -/
def leBytesToInt (bs : List ℕ) : ℤ :=
  let u := leBytesToNat bs
  if 2 * u < 256 ^ bs.length then (u : ℤ) else (u : ℤ) - 256 ^ bs.length

/-- One-byte two's-complement encoding (synthetic construction; inverse of
`leBytesToInt` on single-byte lists for `-128 ≤ v < 128`). -/
def encSignedByte (v : ℤ) : ℕ :=
  (v % 256).toNat

/-- Split `count` equal-sized items off the front of a list, returning the
items and the unconsumed tail: the semantics of
`np.fromfile(f, dtype=..., count=count)` at the byte level, where the
caller passes `count = min(declared, available)`. -/
def splitRecords (size : ℕ) : ℕ → List α → List (List α) × List α
  | 0, l => ([], l)
  | k + 1, l =>
    let p := splitRecords size k (l.drop size)
    (l.take size :: p.1, p.2)

/-- Helper for stride slicing: `everyNthGo c k l` drops `k` elements, then
keeps one element out of every `c`. -/
def everyNthGo (c : ℕ) : ℕ → List α → List α
  | _, [] => []
  | 0, x :: xs => x :: everyNthGo c (c - 1) xs
  | k + 1, _ :: xs => everyNthGo c k xs

/-- Python extended slice `l[::c]` for a positive stride `c`: elements at
indices 0, c, 2c, ... -/
def everyNth (c : ℕ) (l : List α) : List α :=
  everyNthGo c 0 l

/-- Decode one spike record (numpy structured dtype of axonaio.py lines
264-269): a big-endian unsigned timestamp on `bpt` bytes followed by
`sps` little-endian signed samples of `bps` bytes each. -/
def parseSpikeRecord (bpt bps sps : ℕ) (bytes : List ℕ) : ℕ × List ℤ :=
  (beBytesToNat (bytes.take bpt),
   ((splitRecords bps sps (bytes.drop bpt)).1).map leBytesToInt)

/-- Python `params.get(key, default)` for a value used as a non-negative
machine integer: absent keys yield the default, integer values pass
through, and any other stored kind (or a negative count, which would break
the numpy record layout) aborts the decode. -/
def getParamNatDefault (ps : Params) (key : String) (d : ℕ) : Option ℕ :=
  match lookupParam ps key with
  | Option.none => some d
  | some (.int i) => if 0 ≤ i then some i.toNat else Option.none
  | some _ => Option.none

/-- Timebase extraction of `read_spiketrain` (axonaio.py line 259):
`int(params.get("timebase", "96000 hz").split(" ")[0])` — the stored value
must be a string (anything else has no `.split`), its first
space-separated token converted with `int(...)`. -/
def getTimebase (ps : Params) : Option ℤ :=
  match (lookupParam ps "timebase").getD (.str "96000 hz") with
  | .str s => pyInt? ((splitOnChar ' ' s.data).headD [])
  | _ => Option.none

/-- Python `float(value)` on a parameter value: ints and floats convert,
strings are parsed, `None` is a `TypeError`. -/
def pyFloatCoerce : PyValue → Option ℚ
  | .int i => some ((i : ℚ))
  | .float q => some q
  | .str s => pyFloat? s.data
  | .none => Option.none

/-- Embedding of `AxonaIO._channel_gain` (axonaio.py lines 194-198): the
gain of the `channel_index`-th channel of group `channel_group_index` is
root parameter `gain_ch_<g*4+i>` converted with `float(...)`; a missing
key is a KeyError. -/
def channel_gain (rootParams : Params)
    (channel_group_index channel_index : ℕ) : Option ℚ :=
  (lookupParam rootParams
    ("gain_ch_" ++ toString (channel_group_index * 4 + channel_index))).bind
    pyFloatCoerce

/-- Embedding of the per-file body of `AxonaIO.read_spiketrain`
(axonaio.py lines 250-292), from the parsed header dictionary and the
bytes that follow the header sentinel: extract the layout parameters with
their documented defaults, bulk-read `num_spikes * num_chans` records
(numpy reads at most the number of complete records available), verify the
`data_end` trailer, keep the first of the per-channel timestamp repeats
(`data["times"][::num_chans]`, with the mandatory
`len(times) == num_spikes` check) divided by the timebase, reshape the
waveforms to `[num_spikes][num_chans][samples_per_spike]` (numpy rejects a
size mismatch), sign-negate them, and scale them with the per-channel
gains `_channel_gain(group, i)` and the full-scale reference. -/
def read_spiketrain_file (rootParams : Params) (adc_fullscale : ℚ)
    (channel_group_index : ℕ) (headerParams : Params) (payload : List ℕ) :
    Option (List ℚ × List (List (List ℚ))) := do
  let bpt ← getParamNatDefault headerParams "bytes_per_timestamp" 4
  let bps ← getParamNatDefault headerParams "bytes_per_sample" 1
  let num_spikes ← getParamNatDefault headerParams "num_spikes" 0
  let num_chans ← getParamNatDefault headerParams "num_chans" 1
  let samples_per_spike ← getParamNatDefault headerParams "samples_per_spike" 50
  let timebase ← getTimebase headerParams
  let recSize := bpt + samples_per_spike * bps
  let numRead := min (num_spikes * num_chans)
    (if recSize = 0 then 0 else payload.length / recSize)
  let split := splitRecords recSize numRead payload
  match assert_end_of_data split.2 with
  | .error _ => Option.none
  | .ok _ =>
    let recs := split.1.map (parseSpikeRecord bpt bps samples_per_spike)
    let times := (everyNth num_chans (recs.map Prod.fst)).map
      (fun t : ℕ => (t : ℚ) / (timebase : ℚ))
    if times.length = num_spikes then
      if recs.length = num_spikes * num_chans then do
        let gains ← List.mapM (channel_gain rootParams channel_group_index)
          (List.range num_chans)
        let waveforms := ((splitRecords num_chans num_spikes recs).1).map
          (fun spikeRecs => (spikeRecs.zip gains).map
            (fun p => p.1.2.map
              (fun v : ℤ => scale_analog_signal (-(v : ℚ)) p.2 adc_fullscale bps)))
        return (times, waveforms)
      else Option.none
    else Option.none

/-- Synthetic construction of one spike record: big-endian timestamp
followed by the two's-complement sample bytes of one channel. -/
def encodeSpikeRecord (bpt : ℕ) (t : ℕ) (samples : List ℤ) : List ℕ :=
  natToBeBytes bpt t ++ samples.map encSignedByte

/-- Synthetic construction of the post-header bytes of a spike-group
file: for each spike, one record per channel, all repeating that spike's
raw timestamp (the format stores the timestamp once per channel),
followed by the `data_end` trailer. -/
def encodeSpikeFile (bpt : ℕ) (ts : List ℕ)
    (waves : List (List (List ℤ))) : List ℕ :=
  ((ts.zip waves).map
    (fun p => (p.2.map (encodeSpikeRecord bpt p.1)).flatten)).flatten ++
    strBytes "\r\ndata_end"

lemma natToBeBytes_length (w n : ℕ) : (natToBeBytes w n).length = w := by
  induction w generalizing n with
  | zero => rfl
  | succ w ih => simp [natToBeBytes, ih]

lemma beBytesToNat_natToBeBytes (w n : ℕ) :
    beBytesToNat (natToBeBytes w n) = n % 256 ^ w := by
  induction w generalizing n with
  | zero => simp [natToBeBytes, beBytesToNat, Nat.mod_one]
  | succ w ih =>
    have h : beBytesToNat (natToBeBytes w (n / 256) ++ [n % 256]) =
        256 * beBytesToNat (natToBeBytes w (n / 256)) + n % 256 := by
      simp [beBytesToNat, List.foldl_append]
    rw [natToBeBytes, h, ih, pow_succ' 256 w, Nat.mod_mul]
    ring

lemma leBytesToInt_encSignedByte (v : ℤ) (h1 : -128 ≤ v) (h2 : v < 128) :
    leBytesToInt [encSignedByte v] = v := by
  unfold leBytesToInt leBytesToNat encSignedByte
  simp only [List.foldr, List.length_singleton, pow_one, Nat.mul_zero,
    Nat.zero_add]
  split <;> omega

lemma splitRecords_flatten (size : ℕ) (bs : List (List α)) (tail : List α)
    (h : ∀ b ∈ bs, b.length = size) :
    splitRecords size bs.length (bs.flatten ++ tail) = (bs, tail) := by
  induction bs with
  | nil => simp [splitRecords]
  | cons x rest ih =>
    have hx : x.length = size := h x (List.mem_cons_self x rest)
    simp only [List.length_cons, splitRecords, List.flatten_cons,
      List.append_assoc]
    rw [List.take_left' hx, List.drop_left' hx,
      ih (fun b hb => h b (List.mem_cons_of_mem x hb))]

lemma everyNthGo_append_skip (c : ℕ) (l rest : List α) (k : ℕ)
    (h : l.length ≤ k) :
    everyNthGo c k (l ++ rest) = everyNthGo c (k - l.length) rest := by
  induction l generalizing k with
  | nil => simp
  | cons x xs ih =>
    cases k with
    | zero => simp at h
    | succ k =>
      simp only [List.cons_append, everyNthGo, List.append_eq]
      rw [ih k (by simpa using h)]
      have he : k + 1 - (x :: xs).length = k - xs.length := by
        simp only [List.length_cons]
        omega
      rw [he]

lemma everyNth_flatten_replicate (c : ℕ) (hc : 0 < c) (l : List α) :
    everyNth c ((l.map (List.replicate c)).flatten) = l := by
  induction l with
  | nil => simp [everyNth, everyNthGo]
  | cons t rest ih =>
    obtain ⟨c', rfl⟩ : ∃ c', c = c' + 1 := ⟨c - 1, by omega⟩
    simp only [List.map_cons, List.flatten_cons, List.replicate_succ,
      List.cons_append, everyNth, everyNthGo, Nat.add_sub_cancel,
      List.append_eq]
    rw [everyNthGo_append_skip (c' + 1) (List.replicate c' t) _ c'
      (by simp), List.length_replicate, Nat.sub_self]
    simpa [everyNth] using ih

lemma splitRecords_one (l : List α) :
    (splitRecords 1 l.length l).1 = l.map (fun x => [x]) := by
  induction l with
  | nil => rfl
  | cons x xs ih => simp [splitRecords, ih]

lemma parseSpikeRecord_encode (bpt : ℕ) (t : ℕ) (samples : List ℤ)
    (ht : t < 256 ^ bpt) (hs : ∀ v ∈ samples, -128 ≤ v ∧ v < 128) :
    parseSpikeRecord bpt 1 samples.length (encodeSpikeRecord bpt t samples) =
      (t, samples) := by
  unfold parseSpikeRecord encodeSpikeRecord
  rw [List.take_left' (natToBeBytes_length bpt t),
    List.drop_left' (natToBeBytes_length bpt t),
    beBytesToNat_natToBeBytes, Nat.mod_eq_of_lt ht]
  have hlen : samples.length = (samples.map encSignedByte).length :=
    (List.length_map _ _).symm
  rw [hlen, splitRecords_one, List.map_map, List.map_map]
  have hpt : ∀ v ∈ samples,
      ((leBytesToInt ∘ fun x => [x]) ∘ encSignedByte) v = id v := by
    intro v hv
    exact leBytesToInt_encSignedByte v (hs v hv).1 (hs v hv).2
  rw [List.map_congr_left hpt, List.map_id]

lemma mapM_option_length {α β : Type} (f : α → Option β) :
    ∀ (l : List α) (r : List β), List.mapM f l = some r → r.length = l.length := by
  intro l
  induction l with
  | nil =>
    intro r h
    rw [List.mapM_nil] at h
    simp only [Option.pure_def, Option.some.injEq] at h
    rw [← h]
    rfl
  | cons a l ih =>
    intro r h
    rw [List.mapM_cons] at h
    simp only [Option.bind_eq_bind, Option.pure_def] at h
    obtain ⟨b, hb, h2⟩ := Option.bind_eq_some.mp h
    obtain ⟨bs, hbs, h3⟩ := Option.bind_eq_some.mp h2
    simp only [Option.some.injEq] at h3
    rw [← h3, List.length_cons, List.length_cons, ih bs hbs]

lemma flatten_map_flatten {α : Type} (L : List (List (List α))) :
    (L.map List.flatten).flatten = L.flatten.flatten := by
  induction L with
  | nil => rfl
  | cons x xs ih => simp [ih]

/-- C2 counterexample: the catalog builder iterates the glob result as
returned, without sorting (axonaio.py line 159; unlike `read_spiketrain`,
which sorts).  Discovering exactly the files `a.1`, `a.2`, `a.3` but in
the directory-listing order `a.2, a.1, a.3` assigns `a.2` group id 1 —
lexicographic assignment would give it id 2 — so group ids are not
assigned in lexicographic filename order. -/
theorem C2_counterexample :
    (buildCatalog [("a.2", strBytes "num_chans 2\ndata_start"),
                   ("a.1", strBytes "num_chans 2\ndata_start"),
                   ("a.3", strBytes "num_chans 2\ndata_start")]).map
      (fun r => r.1.map (fun g => (g.filename, g.group_id))) =
    some [("a.2", 1), ("a.1", 2), ("a.3", 3)] := by
  decide

/-- C2 (amended): group ids are assigned in discovery order, which is the
glob iteration order and not necessarily lexicographic; when the three
companion files are discovered in lexicographic order `<base>.1`,
`<base>.2`, `<base>.3`, they receive group ids 1, 2, 3 and strictly
increasing, non-overlapping, contiguous channel blocks
`[0, n1)`, `[n1, n1+n2)`, `[n1+n2, n1+n2+n3)`, with total channel count
`n1 + n2 + n3`, the sum of the three `num_chans` header values. -/
theorem C2_catalog_blocks
    (b : String) (h1 h2 h3 : List ℕ) (n1 n2 n3 : ℕ)
    (p1 p2 p3 : Params) (r1 r2 r3 : List ℕ)
    (e1 : parse_header_and_leave_cursor (.fileHandle (b ++ ".1")) h1 = .ok (p1, r1))
    (e2 : parse_header_and_leave_cursor (.fileHandle (b ++ ".2")) h2 = .ok (p2, r2))
    (e3 : parse_header_and_leave_cursor (.fileHandle (b ++ ".3")) h3 = .ok (p3, r3))
    (g1 : getNumChans p1 = some n1) (g2 : getNumChans p2 = some n2)
    (g3 : getNumChans p3 = some n3) :
    buildCatalog [(b ++ ".1", h1), (b ++ ".2", h2), (b ++ ".3", h3)] =
      some ([⟨1, b ++ ".1", List.range' 0 n1⟩,
             ⟨2, b ++ ".2", List.range' n1 n2⟩,
             ⟨3, b ++ ".3", List.range' (n1 + n2) n3⟩],
            n1 + n2 + n3) := by
  simp [buildCatalog, buildCatalogGo, e1, e2, e3, g1, g2, g3,
        Except.toOption, List.range'_eq_map_range]

/-- C2 witness: the amended theorem at base `"a"` with declared channel
counts 2, 3 and 4. -/
theorem C2_catalog_blocks_witness :
    buildCatalog [("a" ++ ".1", strBytes "num_chans 2\ndata_start"),
                  ("a" ++ ".2", strBytes "num_chans 3\ndata_start"),
                  ("a" ++ ".3", strBytes "num_chans 4\ndata_start")] =
      some ([⟨1, "a" ++ ".1", List.range' 0 2⟩,
             ⟨2, "a" ++ ".2", List.range' 2 3⟩,
             ⟨3, "a" ++ ".3", List.range' (2 + 3) 4⟩],
            2 + 3 + 4) :=
  C2_catalog_blocks "a" _ _ _ 2 3 4
    [("num_chans", .int 2), ("data_start", .none)]
    [("num_chans", .int 3), ("data_start", .none)]
    [("num_chans", .int 4), ("data_start", .none)]
    [] [] []
    (by decide) (by decide) (by decide) (by decide) (by decide) (by decide)

/-- C3: decoding a position record whose raw coordinates are `(1023, 100)`
(first slot carries the missing-detection sentinel, second slot a normal
reading).  The claim says only slot 0 becomes NaN and slot 1 decodes to
`100 / pixels_per_metre`; but `coords[np.where(data["coords"][:, i] ==
1023)] = np.nan` indexes whole ROWS, so the code also turns slot 1 into
NaN.  The timestamp is unaffected (`100 / timebase 50 = 2` seconds). -/
theorem C3_sentinel_clobbers_whole_record :
    (read_tracking_records 50 400 1 [(100, [1023, 100])]).2 =
      [[Option.none, Option.none]] ∧
    (read_tracking_records 50 400 1 [(100, [1023, 100])]).1 = [(2 : ℚ)] := by
  constructor
  · decide
  · simp [read_tracking_records]
    norm_num

/-- C4: with root parameters `EEG_ch_1=5`, `mode_ch_5=0`, `b_in_ch_5=2`,
`ref_2=7`, `gain_ch_5=100`, a file with extension `eeg` (no trailing
digits, suffix defaults to 1) resolves through the three-hop chain to
physical channel id 7, while the gain handed to `scale_analog_signal` is
100, looked up by the LOGICAL channel id 5, not the physical id 7. -/
theorem C4_analog_resolution :
    (fileTypeAndSuffix "eeg".data).1 = "eeg".data ∧
    (fileTypeAndSuffix "eeg".data).2 = some 1 ∧
    analog_channel_and_gain
      [("EEG_ch_1", .int 5), ("mode_ch_5", .int 0), ("b_in_ch_5", .int 2),
       ("ref_2", .int 7), ("gain_ch_5", .int 100)] "eeg".data =
      some (.int 7, .int 100) := by
  refine ⟨rfl, by decide, by decide⟩

/-- C5: for every gain ≠ 0, full-scale reference, byte width b ≥ 1 and raw
input, `scale_analog_signal` returns `input / 2 ^ (8 * b - 1) *
(full_scale / gain)`, and the array form applies the same transform in
every slot (element-wise identical to the scalar form).  Arithmetic is
modelled exactly in `ℚ`. -/
theorem C5_scale_formula (value gain fs : ℚ) (b : ℕ) (vs : List ℚ)
    (_hg : gain ≠ 0) (_hb : 1 ≤ b) :
    scale_analog_signal value gain fs b = value / 2 ^ (8 * b - 1) * (fs / gain) ∧
    ∀ i : ℕ, (scale_analog_signal_array vs gain fs b).get? i =
      (vs.get? i).map (fun v => v / 2 ^ (8 * b - 1) * (fs / gain)) := by
  refine ⟨rfl, fun i => ?_⟩
  simp [scale_analog_signal_array, scale_analog_signal]

/-- C5 witness: the theorem applied at value 256, gain 4, full scale 8,
one byte per sample. -/
theorem C5_scale_formula_witness :
    scale_analog_signal 256 4 8 1 = 256 / 2 ^ (8 * 1 - 1) * (8 / 4) :=
  (C5_scale_formula 256 4 8 1 [] (by norm_num) (by norm_num)).1

/-- C6 counterexample: scanning `"foo 1\nbar 2\ndata_startXYZ"` does not
return a block with only the keys `foo` and `bar` — the accumulated header
text still contains the sentinel, so `parse_params` records a third key
`data_start` with a null value. -/
theorem C6_counterexample :
    (parse_header_and_leave_cursor (.fileHandle "testfile")
        (strBytes "foo 1\nbar 2\ndata_startXYZ")).toOption.map
      (fun pr => lookupParam pr.1 "data_start") = some (some PyValue.none) := by
  decide

/-- C6 (amended): scanning `"foo 1\nbar 2\ndata_startXYZ"` returns the
block `{foo: 1, bar: 2, data_start: None}` — the sentinel line itself
becomes a key with a null value — and leaves the read cursor at `"XYZ"`,
immediately after the sentinel. -/
theorem C6_header_scan :
    parse_header_and_leave_cursor (.fileHandle "testfile")
      (strBytes "foo 1\nbar 2\ndata_startXYZ") =
    .ok ([("foo", .int 1), ("bar", .int 2), ("data_start", .none)],
      strBytes "XYZ") := by
  decide

/-- C7: the trailer verifier succeeds exactly when the remaining bytes,
decoded as latin-1 text and stripped of surrounding whitespace, equal
`"data_end"`; in particular it fails on `"data_enc"` and on truncated
input (`"data_en"`), and succeeds on whitespace-padded `"data_end"`. -/
theorem C7_trailer_verifier :
    (∀ bs : List ℕ, assert_end_of_data bs = .ok () ↔
      pyStripL (latin1Decode bs) = "data_end".data) ∧
    assert_end_of_data (strBytes "data_enc") = .error .assertionFailed ∧
    assert_end_of_data (strBytes "data_en") = .error .assertionFailed ∧
    assert_end_of_data (strBytes " data_end \r\n") = .ok () := by
  refine ⟨fun bs => ?_, by decide, by decide, by decide⟩
  unfold assert_end_of_data
  split <;> simp_all

/-- C8: on a source exhausted before `data_start` appears (here the bytes
`"abc"`) the scanner fails, but not with an IOError naming the sentinel:
the source builds the message by concatenating the file OBJECT into a
string (`"Hit end of file '" + file_handle + ...`), which raises a
`TypeError` before the intended IOError is constructed. -/
theorem C8_eof_raises_type_error :
    parse_header_and_leave_cursor (.fileHandle "testfile") (strBytes "abc") =
      .error ScanError.typeError ∧
    ∀ msg : String, eofError (.fileHandle "testfile") ≠ .ioError msg := by
  refine ⟨by decide, fun msg => ?_⟩
  simp [eofError, pyAdd]

/-- C9 counterexample: the tracking decoder's unit assertion is
case-sensitive — `"50.0 Hz"` fails it while `"50.0 hz"` passes — whereas
the claim says the capitalised forms pass as well. -/
theorem C9_counterexample :
    tracking_sample_rate_unit_ok "50.0 Hz".data = false ∧
    tracking_sample_rate_unit_ok "50.0 hz".data = true := by
  decide

/-- C9 (amended): for every header value of the form `"<number> <unit>"`
(neither token containing a space) the tracking decoder's unit assertion
succeeds if and only if the unit token equals `"hz"` exactly —
case-sensitively, unlike the analog decoder which lowercases first. -/
theorem C9_unit_assertion (num unit : List Char)
    (h1 : ' ' ∉ num) (h2 : ' ' ∉ unit) :
    tracking_sample_rate_unit_ok (num ++ ' ' :: unit) = true ↔
      unit = "hz".data := by
  unfold tracking_sample_rate_unit_ok
  rw [splitOnChar_append_sep ' ' num unit h1, splitOnChar_no_sep ' ' unit h2]
  simp

/-- C9 witness: the amended theorem applied to `"50.0 hz"`. -/
theorem C9_unit_assertion_witness :
    tracking_sample_rate_unit_ok ("50.0".data ++ ' ' :: "hz".data) = true :=
  (C9_unit_assertion "50.0".data "hz".data (by decide) (by decide)).mpr rfl

/-- C1: decoding a synthetically constructed spike-group file — a header
declaring `num_spikes = n`, `num_chans = c`, `samples_per_spike = sps`,
one-byte samples, `bpt`-byte timestamps and timebase `tb`, followed by the
big-endian/two's-complement encoding of known raw timestamps `ts` and raw
samples `waves` (the timestamp repeated once per channel, as the format
stores it) and the `data_end` trailer — yields exactly `n` timestamps (the
first of each run of `c` repeats, divided by the timebase) and a waveform
array of shape `[n][c][sps]` whose every entry is the sign-negated raw
sample scaled by the full-scale reference and the per-channel gain
`gain_ch_(g*4+i)` from the root parameters. -/
theorem C1_spike_roundtrip
    (rootParams headerParams : Params) (fs : ℚ) (g : ℕ)
    (n c sps bpt : ℕ) (tb : ℤ) (ts : List ℕ)
    (waves : List (List (List ℤ))) (gains : List ℚ)
    (hbpt : getParamNatDefault headerParams "bytes_per_timestamp" 4 = some bpt)
    (hbptpos : 0 < bpt)
    (hbps : getParamNatDefault headerParams "bytes_per_sample" 1 = some 1)
    (hn : getParamNatDefault headerParams "num_spikes" 0 = some n)
    (hc : getParamNatDefault headerParams "num_chans" 1 = some c)
    (hcpos : 0 < c)
    (hsps : getParamNatDefault headerParams "samples_per_spike" 50 = some sps)
    (htb : getTimebase headerParams = some tb)
    (hgains : List.mapM (channel_gain rootParams g) (List.range c) = some gains)
    (hts : ts.length = n)
    (hwlen : waves.length = n)
    (hrow : ∀ w ∈ waves, w.length = c)
    (hchanlen : ∀ w ∈ waves, ∀ chan ∈ w, chan.length = sps)
    (htsrange : ∀ t ∈ ts, t < 256 ^ bpt)
    (hsrange : ∀ w ∈ waves, ∀ chan ∈ w, ∀ v ∈ chan, -128 ≤ v ∧ v < 128) :
    read_spiketrain_file rootParams fs g headerParams
        (encodeSpikeFile bpt ts waves) =
      some (ts.map (fun t : ℕ => (t : ℚ) / (tb : ℚ)),
        waves.map (fun w => (w.zip gains).map
          (fun p => p.1.map
            (fun v : ℤ => scale_analog_signal (-(v : ℚ)) p.2 fs 1)))) ∧
    (ts.map (fun t : ℕ => (t : ℚ) / (tb : ℚ))).length = n ∧
    (waves.map (fun w => (w.zip gains).map
      (fun p => p.1.map
        (fun v : ℤ => scale_analog_signal (-(v : ℚ)) p.2 fs 1)))).length = n ∧
    ∀ row ∈ waves.map (fun w => (w.zip gains).map
      (fun p => p.1.map
        (fun v : ℤ => scale_analog_signal (-(v : ℚ)) p.2 fs 1))),
      row.length = c ∧ ∀ chan ∈ row, chan.length = sps := by
  have hspikes_len : (ts.zip waves).length = n := by
    rw [List.length_zip, hts, hwlen]
    exact min_self n
  have hmemw : ∀ p ∈ ts.zip waves, p.1 ∈ ts ∧ p.2 ∈ waves := by
    intro p hp
    obtain ⟨a, b⟩ := p
    exact List.of_mem_zip hp
  have hgains_len : gains.length = c := by
    have := mapM_option_length (channel_gain rootParams g) (List.range c)
      gains hgains
    simpa using this
  have hgroups_inner : ∀ p ∈ ts.zip waves,
      (p.2.map (encodeSpikeRecord bpt p.1)).map (parseSpikeRecord bpt 1 sps) =
        p.2.map (fun chan => (p.1, chan)) := by
    intro p hp
    rw [List.map_map]
    apply List.map_congr_left
    intro chan hcm
    have h1 := hchanlen p.2 (hmemw p hp).2 chan hcm
    have h2 := hsrange p.2 (hmemw p hp).2 chan hcm
    have h3 := htsrange p.1 (hmemw p hp).1
    have h4 := parseSpikeRecord_encode bpt p.1 chan h3 h2
    rw [h1] at h4
    simpa using h4
  have hblock_len : ∀ b ∈ ((ts.zip waves).map
      (fun p => p.2.map (encodeSpikeRecord bpt p.1))).flatten,
      b.length = bpt + sps := by
    intro b hb
    obtain ⟨gr, hgr, hbgr⟩ := List.mem_flatten.mp hb
    obtain ⟨p, hp, rfl⟩ := List.mem_map.mp hgr
    obtain ⟨chan, hcm, rfl⟩ := List.mem_map.mp hbgr
    have h1 := hchanlen p.2 (hmemw p hp).2 chan hcm
    simp [encodeSpikeRecord, natToBeBytes_length, h1]
  have hblocks_len : (((ts.zip waves).map
      (fun p => p.2.map (encodeSpikeRecord bpt p.1))).flatten).length =
      n * c := by
    rw [List.length_flatten, List.map_map]
    have hrep : (ts.zip waves).map
        (List.length ∘ fun p => p.2.map (encodeSpikeRecord bpt p.1)) =
        List.replicate n c := by
      rw [List.eq_replicate_iff]
      refine ⟨by simp [hspikes_len], ?_⟩
      intro x hx
      obtain ⟨p, hp, rfl⟩ := List.mem_map.mp hx
      simp [hrow p.2 (hmemw p hp).2]
    rw [hrep, List.sum_replicate, smul_eq_mul]
  have hbody : encodeSpikeFile bpt ts waves =
      (((ts.zip waves).map
        (fun p => p.2.map (encodeSpikeRecord bpt p.1))).flatten).flatten ++
        strBytes "\r\ndata_end" := by
    rw [encodeSpikeFile, ← flatten_map_flatten, List.map_map]
    rfl
  have hpayload_len : (encodeSpikeFile bpt ts waves).length =
      (bpt + sps) * (n * c) + 10 := by
    rw [hbody, List.length_append, List.length_flatten]
    have hrep : (((ts.zip waves).map
        (fun p => p.2.map (encodeSpikeRecord bpt p.1))).flatten).map
        List.length = List.replicate (n * c) (bpt + sps) := by
      rw [List.eq_replicate_iff]
      refine ⟨by rw [List.length_map, hblocks_len], ?_⟩
      intro x hx
      obtain ⟨b, hb, rfl⟩ := List.mem_map.mp hx
      exact hblock_len b hb
    rw [hrep, List.sum_replicate, smul_eq_mul]
    have h10 : (strBytes "\r\ndata_end").length = 10 := by decide
    rw [h10, Nat.mul_comm]
  have hsplit := splitRecords_flatten (bpt + sps)
    (((ts.zip waves).map
      (fun p => p.2.map (encodeSpikeRecord bpt p.1))).flatten)
    (strBytes "\r\ndata_end") hblock_len
  rw [hblocks_len] at hsplit
  have hrecs : ((((ts.zip waves).map
      (fun p => p.2.map (encodeSpikeRecord bpt p.1))).flatten).map
      (parseSpikeRecord bpt 1 sps)) =
      ((ts.zip waves).map
        (fun p => p.2.map (fun chan => (p.1, chan)))).flatten := by
    rw [List.map_flatten, List.map_map]
    congr 1
    apply List.map_congr_left
    intro p hp
    simpa using hgroups_inner p hp
  have hrecs_len : (((ts.zip waves).map
      (fun p => p.2.map (fun chan => (p.1, chan)))).flatten).length =
      n * c := by
    rw [List.length_flatten, List.map_map]
    have hrep : (ts.zip waves).map
        (List.length ∘ fun p => p.2.map (fun chan => (p.1, chan))) =
        List.replicate n c := by
      rw [List.eq_replicate_iff]
      refine ⟨by simp [hspikes_len], ?_⟩
      intro x hx
      obtain ⟨p, hp, rfl⟩ := List.mem_map.mp hx
      simp [hrow p.2 (hmemw p hp).2]
    rw [hrep, List.sum_replicate, smul_eq_mul]
  have hevery : everyNth c ((((ts.zip waves).map
      (fun p => p.2.map (fun chan => (p.1, chan)))).flatten).map Prod.fst) =
      ts := by
    have h1 : ((((ts.zip waves).map
        (fun p => p.2.map (fun chan => (p.1, chan)))).flatten).map Prod.fst) =
        (ts.map (List.replicate c)).flatten := by
      rw [List.map_flatten, List.map_map]
      have h2 : (ts.zip waves).map
          (List.map Prod.fst ∘ fun p => p.2.map (fun chan => (p.1, chan))) =
          (ts.zip waves).map (fun p => List.replicate c p.1) := by
        apply List.map_congr_left
        intro p hp
        simp only [Function.comp_apply, List.map_map]
        rw [show ((Prod.fst ∘ fun chan : List ℤ => (p.1, chan)) =
          fun _ => p.1) from rfl]
        rw [List.map_const', hrow p.2 (hmemw p hp).2]
      rw [h2, show (fun p : ℕ × List (List ℤ) => List.replicate c p.1) =
        (List.replicate c ∘ Prod.fst) from rfl, ← List.map_map,
        List.map_fst_zip ts waves (by rw [hts, hwlen])]
    rw [h1]
    exact everyNth_flatten_replicate c hcpos ts
  have hgrp_len : ∀ gr ∈ (ts.zip waves).map
      (fun p => p.2.map (fun chan => (p.1, chan))), gr.length = c := by
    intro gr hgr
    obtain ⟨p, hp, rfl⟩ := List.mem_map.mp hgr
    simp [hrow p.2 (hmemw p hp).2]
  have hreshape := splitRecords_flatten c
    ((ts.zip waves).map (fun p => p.2.map (fun chan => (p.1, chan)))) []
    hgrp_len
  rw [List.length_map, hspikes_len, List.append_nil] at hreshape
  have hwf : (((ts.zip waves).map
      (fun p => p.2.map (fun chan => (p.1, chan)))).map
      (fun spikeRecs => (spikeRecs.zip gains).map
        (fun p => p.1.2.map
          (fun v : ℤ => scale_analog_signal (-(v : ℚ)) p.2 fs 1)))) =
      waves.map (fun w => (w.zip gains).map
        (fun p => p.1.map
          (fun v : ℤ => scale_analog_signal (-(v : ℚ)) p.2 fs 1))) := by
    rw [List.map_map]
    have hpt : ∀ p ∈ ts.zip waves,
        ((fun spikeRecs : List (ℕ × List ℤ) => (spikeRecs.zip gains).map
          (fun q => q.1.2.map
            (fun v : ℤ => scale_analog_signal (-(v : ℚ)) q.2 fs 1))) ∘
          fun p => p.2.map (fun chan => (p.1, chan))) p =
        ((fun w : List (List ℤ) => (w.zip gains).map
          (fun q => q.1.map
            (fun v : ℤ => scale_analog_signal (-(v : ℚ)) q.2 fs 1))) ∘
          Prod.snd) p := by
      intro p _
      simp only [Function.comp_apply]
      rw [List.zip_map_left, List.map_map]
      apply List.map_congr_left
      intro a _
      rfl
    rw [List.map_congr_left hpt, ← List.map_map,
      List.map_snd_zip ts waves (by rw [hts, hwlen])]
  refine ⟨?_, by rw [List.length_map, hts], by rw [List.length_map, hwlen], ?_⟩
  · unfold read_spiketrain_file
    rw [hbpt, hbps, hn, hc, hsps, htb]
    simp only [Option.bind_eq_bind, Option.some_bind, mul_one]
    have hrs0 : ¬(bpt + sps = 0) := by omega
    rw [if_neg hrs0, hpayload_len,
      Nat.mul_add_div (by omega) (n * c) 10,
      min_eq_left (Nat.le_add_right _ _), hbody, hsplit]
    have htrailer : assert_end_of_data (strBytes "\r\ndata_end") = .ok () := by
      decide
    rw [htrailer]
    simp only [hrecs, hevery, List.length_map, hts, hrecs_len, hgains,
      Option.some_bind, hreshape, hwf, eq_self_iff_true, if_true,
      Option.pure_def]
  · intro row hrow'
    obtain ⟨w, hw, rfl⟩ := List.mem_map.mp hrow'
    constructor
    · rw [List.length_map, List.length_zip, hrow w hw, hgains_len]
      exact min_self c
    · intro chan hcm
      obtain ⟨q, hq, rfl⟩ := List.mem_map.mp hcm
      have hq1 : q.1 ∈ w := by
        obtain ⟨a, b⟩ := q
        exact (List.of_mem_zip hq).1
      rw [List.length_map]
      exact hchanlen w hw q.1 hq1

/-- C1 witness: the round-trip theorem applied to a concrete synthetic
file for channel group 1 — two spikes, two channels, three samples per
spike, timestamps 1 and 2, timebase 96000, full scale 8, gains 100
(`gain_ch_4`) and 200 (`gain_ch_5`). -/
theorem C1_spike_roundtrip_witness :
    read_spiketrain_file [("gain_ch_4", .int 100), ("gain_ch_5", .int 200)]
        8 1
        [("num_spikes", .int 2), ("num_chans", .int 2),
         ("samples_per_spike", .int 3), ("bytes_per_timestamp", .int 4),
         ("bytes_per_sample", .int 1), ("timebase", .str "96000 hz")]
        (encodeSpikeFile 4 [1, 2]
          [[[1, -1, 0], [2, 3, -4]], [[5, -6, 7], [-8, 9, 10]]]) =
      some (([1, 2] : List ℕ).map
          (fun t : ℕ => (t : ℚ) / ((96000 : ℤ) : ℚ)),
        ([[[1, -1, 0], [2, 3, -4]], [[5, -6, 7], [-8, 9, 10]]] :
            List (List (List ℤ))).map
          (fun w => (w.zip [((100 : ℤ) : ℚ), ((200 : ℤ) : ℚ)]).map
            (fun p => p.1.map
              (fun v : ℤ => scale_analog_signal (-(v : ℚ)) p.2 8 1)))) :=
  (C1_spike_roundtrip
    [("gain_ch_4", .int 100), ("gain_ch_5", .int 200)]
    [("num_spikes", .int 2), ("num_chans", .int 2),
     ("samples_per_spike", .int 3), ("bytes_per_timestamp", .int 4),
     ("bytes_per_sample", .int 1), ("timebase", .str "96000 hz")]
    8 1 2 2 3 4 96000 [1, 2]
    [[[1, -1, 0], [2, 3, -4]], [[5, -6, 7], [-8, 9, 10]]]
    [((100 : ℤ) : ℚ), ((200 : ℤ) : ℚ)]
    (by decide) (by decide) (by decide) (by decide) (by decide) (by decide)
    (by decide) (by decide) rfl (by decide) (by decide) (by decide)
    (by decide) (by decide) (by decide)).1

end Axona
